import Mathlib

/-!
Verification of the decode transfer core of the `go-flac` bindings
(`flac/flac.go`, plus the STREAMINFO serializer and `PCMToInt32` utility in
`flac/roundtrip_test.go`).

The Go code is shallowly embedded as executable Lean definitions:
* machine integers are modelled as `Int` (Go `int`, `int32`, `int64`) with
  two's-complement bit patterns made explicit as `Nat` values (`u32`, `u64`)
  where Go performs byte extraction or bitwise operations;
* the libFLAC backend (out of scope of the spec, reached only through
  `FLAC__stream_decoder_process_single` and the three registered callbacks)
  is modelled as a queue of pending decode steps, each step invoking zero or
  more error callbacks and at most one write callback, plus an end-of-stream
  flag that is raised when the queue is exhausted — matching the backend
  interface contract "decode one frame, or none at end-of-stream";
* the external `github.com/drgolem/ringbuffer` dependency (its source is not
  part of this repository) is modelled from the spec, section 4.1: `Write` is
  all-or-nothing and fails when the data exceeds free space, `Read` copies
  `min(len(dst), availableRead)` bytes and never fails, `Reset` discards all
  buffered bytes.
-/

/-! ## Bit-arithmetic helpers -/

/-- A natural below `2^k` occupies only the low `k` bits, so OR-ing it onto a
multiple of `2^k` is plain addition. -/
theorem two_pow_mul_lor_eq_add (k a b : Nat) (hb : b < 2^k) :
    (2^k * a) ||| b = 2^k * a + b := by
  apply Nat.eq_of_testBit_eq
  intro i
  simp only [Nat.testBit_or]
  rcases Nat.lt_or_ge i k with hik | hik
  · have h1 : Nat.testBit (2^k * a) i = false := by
      rw [Nat.mul_comm, ← Nat.shiftLeft_eq, Nat.testBit_shiftLeft]
      simp [Nat.not_le.mpr hik]
    rw [h1]
    have hk : (2:Nat)^k = 2^(i+1) * 2^(k-i-1) := by
      rw [← Nat.pow_add]
      congr 1
      omega
    rw [Nat.testBit_to_div_mod, Nat.testBit_to_div_mod]
    have hdiv : (2^k*a + b) / 2^i = 2 * (2^(k-i-1)*a) + b / 2^i := by
      have h2 : 2^k*a = 2^i * (2 * (2^(k-i-1)*a)) := by rw [hk]; ring
      rw [h2, Nat.mul_add_div (Nat.two_pow_pos i)]
    rw [hdiv]
    simp only [Bool.false_or]
    have hm : (2 * (2^(k-i-1)*a) + b / 2^i) % 2 = b / 2^i % 2 := by omega
    rw [hm]
  · have h2 : Nat.testBit b i = false := by
      rw [← Nat.mod_eq_of_lt hb, Nat.testBit_mod_two_pow]
      simp [Nat.not_lt.mpr hik]
    rw [h2]
    have h3 : Nat.testBit (2^k*a) i = Nat.testBit a (i - k) := by
      rw [Nat.mul_comm, ← Nat.shiftLeft_eq, Nat.testBit_shiftLeft]
      simp [hik]
    rw [h3, Nat.testBit_to_div_mod, Nat.testBit_to_div_mod]
    have e1 : i = k + (i - k) := by omega
    have hdiv : (2^k*a + b) / 2^i = a / 2^(i-k) := by
      conv_lhs => rw [e1]
      rw [Nat.pow_add, ← Nat.div_div_eq_div_mul, Nat.mul_add_div (Nat.two_pow_pos k),
        Nat.div_eq_of_lt hb, Nat.add_zero]
    rw [hdiv]
    simp

/-- OR distributes over a common low-zero shift. -/
theorem two_pow_mul_lor_two_pow_mul (k a c : Nat) :
    (2^k * a) ||| (2^k * c) = 2^k * (a ||| c) := by
  apply Nat.eq_of_testBit_eq
  intro i
  simp only [Nat.testBit_or, Nat.mul_comm (2^k), ← Nat.shiftLeft_eq, Nat.testBit_shiftLeft,
    Nat.testBit_or]
  rcases Nat.lt_or_ge i k with hik | hik
  · simp [Nat.not_le.mpr hik]
  · simp [hik]

/-- Variant of `two_pow_mul_lor_eq_add` with the small operand on the left. -/
theorem lor_two_pow_mul_eq_add (k a b : Nat) (hb : b < 2^k) :
    b ||| (2^k * a) = 2^k * a + b := by
  rw [Nat.lor_comm]
  exact two_pow_mul_lor_eq_add k a b hb

/-! ## Two's-complement views of Go integers

Go's `byte(x)` / `byte(x >> 8k)` on an `int32` extract the bits `8k .. 8k+7`
of the 32-bit two's-complement pattern of `x` (an arithmetic shift only
changes bits that the final truncation to `byte` discards). We therefore work
with the pattern `u32 x` and extract bytes by division and remainder. -/

/-- The 32-bit two's-complement pattern of a Go `int32` value. -/
def u32 (x : Int) : Nat := (x % 2^32).toNat

/-- The 64-bit two's-complement pattern of a Go `int64`/`uint64` value. -/
def u64 (x : Int) : Nat := (x % 2^64).toNat

/-- Go `byte(x >> (8*k))` for an `int32` operand. -/
def goByte (x : Int) (k : Nat) : Nat := u32 x / 2^(8*k) % 2^8

/-- Go `byte(x >> (8*k))` for a 64-bit operand. -/
def goByte64 (x : Int) (k : Nat) : Nat := u64 x / 2^(8*k) % 2^8

/-- Value of an 8-bit two's-complement pattern, as produced by Go
`int32(int8(b))`. -/
def int8val (b : Nat) : Int :=
  if b % 2^8 < 2^7 then (b % 2^8 : Nat) else (b % 2^8 : Nat) - 2^8

/-- Value of a 16-bit two's-complement pattern, as produced by Go
`int32(int16 pattern)`. -/
def int16val (u : Nat) : Int :=
  if u % 2^16 < 2^15 then (u % 2^16 : Nat) else (u % 2^16 : Nat) - 2^16

/-- Value of a 32-bit two's-complement pattern (a Go `int32`). -/
def int32val (u : Nat) : Int :=
  if u % 2^32 < 2^31 then (u % 2^32 : Nat) else (u % 2^32 : Nat) - 2^32

/-! ## Sample packing (decoder write path, `flac.go`) -/

/-- Embedding of `int32toInt24LEBytes` (flac.go): sign-extend from bit 23
(`if n & 0x800000 > 0 { n |= ^0xffffff }`, i.e. OR `0xff000000` onto the
32-bit pattern) and emit the three low bytes, little-endian. -/
def int32toInt24LEBytes (x : Int) : List Nat :=
  let u := u32 x
  let u2 := if 0 < u &&& 0x800000 then u ||| 0xff000000 else u
  [u2 % 2^8, u2 / 2^8 % 2^8, u2 / 2^16 % 2^8]

/-- Per-sample byte production of `decoderWriteCallback` (flac.go), keyed on
`dec.streamBytesPerSample` and (for the 24-bit case) on
`dec.maxOutputSampleBitDepth`: width 3 emits `b24[:3]` at 24-bit output and
`b24[1:3]` otherwise; widths 2, 1, 4 emit little-endian bytes of the sample.
`none` models the `default` arm (unsupported width). -/
def packSample (streamBytesPerSample maxOutputSampleBitDepth : Int) (sample : Int) :
    Option (List Nat) :=
  if streamBytesPerSample = 3 then
    let b24 := int32toInt24LEBytes sample
    if maxOutputSampleBitDepth = 24 then some b24 else some (b24.drop 1)
  else if streamBytesPerSample = 2 then
    some [goByte sample 0, goByte sample 1]
  else if streamBytesPerSample = 1 then
    some [goByte sample 0]
  else if streamBytesPerSample = 4 then
    some [goByte sample 0, goByte sample 1, goByte sample 2, goByte sample 3]
  else
    none

/-! ## Sample unpacking (`PCMToInt32`, roundtrip_test.go) -/

/-- One iteration of the `PCMToInt32` conversion loop: decode the sample at
byte offset `off` for the given byte width, little-endian with sign
extension; widths outside the `switch` cases leave the output entry (`old`)
untouched. -/
def pcmDecodeOne (pcm : List Nat) (bytesPerSample : Int) (off : Nat) (old : Int) : Int :=
  if bytesPerSample = 1 then
    int8val (pcm.getD off 0)
  else if bytesPerSample = 2 then
    int16val (pcm.getD off 0 ||| (pcm.getD (off+1) 0) <<< 8)
  else if bytesPerSample = 3 then
    let v := pcm.getD off 0 ||| (pcm.getD (off+1) 0) <<< 8 ||| (pcm.getD (off+2) 0) <<< 16
    if v &&& 0x800000 ≠ 0 then int32val (v ||| 0xff000000) else (v : Int)
  else if bytesPerSample = 4 then
    int32val (pcm.getD off 0 ||| (pcm.getD (off+1) 0) <<< 8 ||| (pcm.getD (off+2) 0) <<< 16 |||
      (pcm.getD (off+3) 0) <<< 24)
  else
    old

/-- The `for i := 0; i < numSamples; i++` write loop of `PCMToInt32`, walking
the output slice: entries at indices below `numSamples` are overwritten with
the decoded sample, later entries are left as they were. -/
def pcmLoop (pcm : List Nat) (bytesPerSample : Int) (numSamples : Nat) :
    Nat → List Int → List Int
  | _, [] => []
  | i, old :: rest =>
    (if i < numSamples then pcmDecodeOne pcm bytesPerSample (i * bytesPerSample.toNat) old
     else old) :: pcmLoop pcm bytesPerSample numSamples (i+1) rest

/-- Embedding of `PCMToInt32` (roundtrip_test.go). `none` models the Go
runtime panic `len(pcm) / 0` when the byte width is zero (bit depths 0..7).
The returned count is the Go `int` result (negative for negative bit depths);
the returned list is the output slice after the loop. -/
def PCMToInt32 (pcm : List Nat) (bitsPerSample : Int) (out : List Int) :
    Option (Int × List Int) :=
  let bytesPerSample := bitsPerSample.tdiv 8
  if bytesPerSample = 0 then none
  else
    let numSamples0 : Int := (pcm.length : Int).tdiv bytesPerSample
    let numSamples := if (out.length : Int) < numSamples0 then (out.length : Int) else numSamples0
    some (numSamples, pcmLoop pcm bytesPerSample numSamples.toNat 0 out)

/-! ## Round-trip lemmas for the sample packer -/

theorem goByte_lt (x : Int) (k : Nat) : goByte x k < 2^8 :=
  Nat.mod_lt _ (by norm_num)

theorem u32_lt (x : Int) : u32 x < 2^32 := by
  unfold u32
  omega

/-- The three bytes produced by `int32toInt24LEBytes` are exactly the three
low bytes of the sample's two's-complement pattern: the sign-extension step
only touches bits 24 and above, which the byte truncation discards. -/
theorem int32toInt24LEBytes_eq_goBytes (x : Int) :
    int32toInt24LEBytes x = [goByte x 0, goByte x 1, goByte x 2] := by
  unfold int32toInt24LEBytes goByte
  set u := u32 x with hu
  have hul : u < 2^32 := u32_lt x
  by_cases hbit : 0 < u &&& 0x800000
  · simp only [if_pos hbit]
    have hrange : u % 2^24 < 2^24 := Nat.mod_lt _ (by norm_num)
    have hc : (0xff000000 : Nat) = 2^24 * 255 := by norm_num
    have horval : u ||| 0xff000000 = 2^24 * ((u / 2^24) ||| 255) + u % 2^24 := by
      calc u ||| 0xff000000
          = ((2^24 * (u / 2^24)) ||| (u % 2^24)) ||| (2^24 * 255) := by
            rw [two_pow_mul_lor_eq_add 24 (u / 2^24) (u % 2^24) hrange, Nat.div_add_mod, hc]
        _ = ((2^24 * (u / 2^24)) ||| (2^24 * 255)) ||| (u % 2^24) := by
            rw [Nat.lor_assoc, Nat.lor_assoc, Nat.lor_comm (u % 2^24)]
        _ = (2^24 * ((u / 2^24) ||| 255)) ||| (u % 2^24) := by
            rw [two_pow_mul_lor_two_pow_mul]
        _ = 2^24 * ((u / 2^24) ||| 255) + u % 2^24 :=
            two_pow_mul_lor_eq_add 24 _ _ hrange
    rw [horval]
    simp only [List.cons.injEq, and_true]
    omega
  · simp only [if_neg hbit]
    simp only [List.cons.injEq, and_true]
    omega


theorem assemble16 (b0 b1 : Nat) (hb0 : b0 < 2^8) :
    b0 ||| b1 <<< 8 = 2^8 * b1 + b0 := by
  rw [Nat.shiftLeft_eq, Nat.mul_comm b1]
  exact lor_two_pow_mul_eq_add 8 b1 b0 hb0

theorem assemble24 (b0 b1 b2 : Nat) (hb0 : b0 < 2^8) (hb1 : b1 < 2^8) :
    b0 ||| b1 <<< 8 ||| b2 <<< 16 = 2^16 * b2 + 2^8 * b1 + b0 := by
  rw [assemble16 b0 b1 hb0, Nat.shiftLeft_eq, Nat.mul_comm b2]
  rw [lor_two_pow_mul_eq_add 16 b2 (2^8 * b1 + b0) (by omega)]
  ring

theorem assemble32 (b0 b1 b2 b3 : Nat) (hb0 : b0 < 2^8) (hb1 : b1 < 2^8) (hb2 : b2 < 2^8) :
    b0 ||| b1 <<< 8 ||| b2 <<< 16 ||| b3 <<< 24 = 2^24 * b3 + 2^16 * b2 + 2^8 * b1 + b0 := by
  rw [assemble24 b0 b1 b2 hb0 hb1, Nat.shiftLeft_eq, Nat.mul_comm b3]
  rw [lor_two_pow_mul_eq_add 24 b3 (2^16 * b2 + 2^8 * b1 + b0) (by omega)]
  ring

theorem goByte_eq (x : Int) (k : Nat) :
    goByte x k = (x % 2^32).toNat / 2^(8*k) % 256 := rfl

theorem pcmDecodeOne_int8 (x old : Int) (h1 : -(2^7) ≤ x) (h2 : x < 2^7) :
    pcmDecodeOne [goByte x 0] 1 0 old = x := by
  have hg0 : goByte x 0 = (x % 2^32).toNat % 256 := by
    rw [goByte_eq]; norm_num
  simp only [pcmDecodeOne, List.getD_cons_zero, if_pos rfl, hg0, int8val]
  split_ifs <;> omega

theorem pcmDecodeOne_int16 (x old : Int) (h1 : -(2^15) ≤ x) (h2 : x < 2^15) :
    pcmDecodeOne [goByte x 0, goByte x 1] 2 0 old = x := by
  have hg0 : goByte x 0 = (x % 2^32).toNat % 256 := by rw [goByte_eq]; norm_num
  have hg1 : goByte x 1 = (x % 2^32).toNat / 256 % 256 := by rw [goByte_eq]; norm_num
  simp only [pcmDecodeOne]
  norm_num
  rw [assemble16 _ _ (goByte_lt x 0), hg0, hg1, int16val]
  split_ifs <;> omega

theorem pcmDecodeOne_int24 (x old : Int) (h1 : -(2^23) ≤ x) (h2 : x < 2^23) :
    pcmDecodeOne [goByte x 0, goByte x 1, goByte x 2] 3 0 old = x := by
  have hg0 : goByte x 0 = (x % 2^32).toNat % 256 := by rw [goByte_eq]; norm_num
  have hg1 : goByte x 1 = (x % 2^32).toNat / 256 % 256 := by rw [goByte_eq]; norm_num
  have hg2 : goByte x 2 = (x % 2^32).toNat / 65536 % 256 := by rw [goByte_eq]; norm_num
  have hasm : goByte x 0 ||| goByte x 1 <<< 8 ||| goByte x 2 <<< 16 =
      2^16 * goByte x 2 + 2^8 * goByte x 1 + goByte x 0 :=
    assemble24 _ _ _ (goByte_lt x 0) (goByte_lt x 1)
  have hb0 := goByte_lt x 0
  have hb1 := goByte_lt x 1
  have hb2 := goByte_lt x 2
  simp only [pcmDecodeOne, List.getD_cons_zero, List.getD_cons_succ]
  norm_num
  rw [hasm]
  set V := 2^16 * goByte x 2 + 2^8 * goByte x 1 + goByte x 0 with hV
  have hVlt : V < 2^24 := by omega
  have hand : V &&& 0x800000 = (V.testBit 23).toNat * 2^23 := by
    rw [show (0x800000:Nat) = 2^23 by norm_num]
    exact Nat.and_two_pow V 23
  have ht : V.testBit 23 = decide (V / 2^23 % 2 = 1) := Nat.testBit_to_div_mod
  rw [hg0, hg1, hg2] at hV
  have hiff : (V &&& 0x800000 ≠ 0) ↔ V / 2^23 % 2 = 1 := by
    rw [hand, ht]
    by_cases h : V / 2^23 % 2 = 1 <;> simp [h]
  split_ifs with hc
  · have hc2 : ¬ V / 2^23 % 2 = 1 := fun h => (hiff.mpr h) hc
    omega
  · have hc2 := hiff.mp hc
    rw [show (0xff000000:Nat) = 2^24 * 255 by norm_num, lor_two_pow_mul_eq_add 24 255 V hVlt,
      int32val]
    split_ifs <;> omega

theorem pcmDecodeOne_int32 (x old : Int) (h1 : -(2^31) ≤ x) (h2 : x < 2^31) :
    pcmDecodeOne [goByte x 0, goByte x 1, goByte x 2, goByte x 3] 4 0 old = x := by
  have hg0 : goByte x 0 = (x % 2^32).toNat % 256 := by rw [goByte_eq]; norm_num
  have hg1 : goByte x 1 = (x % 2^32).toNat / 256 % 256 := by rw [goByte_eq]; norm_num
  have hg2 : goByte x 2 = (x % 2^32).toNat / 65536 % 256 := by rw [goByte_eq]; norm_num
  have hg3 : goByte x 3 = (x % 2^32).toNat / 16777216 % 256 := by rw [goByte_eq]; norm_num
  have hasm : goByte x 0 ||| goByte x 1 <<< 8 ||| goByte x 2 <<< 16 ||| goByte x 3 <<< 24 =
      2^24 * goByte x 3 + 2^16 * goByte x 2 + 2^8 * goByte x 1 + goByte x 0 :=
    assemble32 _ _ _ _ (goByte_lt x 0) (goByte_lt x 1) (goByte_lt x 2)
  have hb0 := goByte_lt x 0
  have hb1 := goByte_lt x 1
  have hb2 := goByte_lt x 2
  have hb3 := goByte_lt x 3
  simp only [pcmDecodeOne, List.getD_cons_zero, List.getD_cons_succ]
  norm_num
  rw [hasm, int32val]
  split_ifs <;> omega

theorem pcmDecodeOne_int24to16 (x old : Int) (h1 : -(2^23) ≤ x) (h2 : x < 2^23) :
    pcmDecodeOne [goByte x 1, goByte x 2] 2 0 old = x / 256 := by
  have hg1 : goByte x 1 = (x % 2^32).toNat / 256 % 256 := by rw [goByte_eq]; norm_num
  have hg2 : goByte x 2 = (x % 2^32).toNat / 65536 % 256 := by rw [goByte_eq]; norm_num
  simp only [pcmDecodeOne]
  norm_num
  rw [assemble16 _ _ (goByte_lt x 1), hg1, hg2, int16val]
  split_ifs <;> omega

/-! ## Decoder state machine (`FlacDecoder`, flac.go)

The libFLAC backend is opaque: one `FLAC__stream_decoder_process_single`
call invokes zero or more error callbacks and at most one write callback
(delivering one frame), or none at all once the stream is exhausted, in which
case `FLAC__stream_decoder_get_state` starts reporting
`FLAC__STREAM_DECODER_END_OF_STREAM`. We model the pending work as a list of
`BackendStep`s and end-of-stream as the exhaustion flag `eofSeen`. -/

/-- Error values stored in `lastError` or returned by the decoder; they
mirror the identities of the distinct Go `error` values created in flac.go. -/
inductive Err where
  /-- `fmt.Errorf("FLAC decoder error: %s", errMsg)` built by
  `decoderErrorCallback` from the status code. -/
  | flacDecoderError (status : Nat)
  /-- `"channels not initialized - metadata callback not called"`. -/
  | channelsNotInitialized
  /-- A ring-buffer `Write` failure surfaced by the write callback. -/
  | ringWriteFailed
  /-- `"unsupported stream bytes per sample: %d"`. -/
  | unsupportedStreamBps (n : Int)
  /-- `"samples must be positive"`. -/
  | samplesNotPositive
  /-- `"decoder not initialized: channels or outputBytesPerSample invalid"`. -/
  | notInitialized
  /-- `"samples value too large, would cause integer overflow"`. -/
  | overflowErr
  /-- `"audio buffer too small: need %d bytes, got %d"`. -/
  | bufferTooSmall
  /-- `io.EOF`. -/
  | endOfStream
  /-- `"decode samples error: %d"` (backend failure with nothing latched). -/
  | decodeError
  /-- `"cannot seek before start of stream"`. -/
  | seekNegative
  /-- `"cannot seek beyond end of stream (pos: %d, total: %d)"`. -/
  | seekBeyondEnd
  /-- `"seek failed, decoder state: %d"`. -/
  | seekFailed
  deriving DecidableEq, Repr

/-- One decoded frame as handed to the write callback: the block size from
the frame header and the per-channel sample arrays. -/
structure Frame where
  blocksize : Nat
  chans : List (List Int)
  deriving DecidableEq, Repr

/-- The callback activity of one `FLAC__stream_decoder_process_single` call:
the error-callback invocations, the frame delivered to the write callback (if
any), and the backend's own success/failure result. -/
structure BackendStep where
  errs : List Nat
  frame : Option Frame
  ok : Bool
  deriving DecidableEq, Repr

/-- State of a `FlacDecoder` (flac.go) together with the modelled backend. -/
structure DecState where
  channels : Int
  outputBytesPerSample : Int
  streamBytesPerSample : Int
  maxOutputSampleBitDepth : Int
  currentSample : Int
  totalSamples : Int
  lastError : Option Err
  /-- Unread content of the ring buffer, oldest byte first. -/
  ring : List Nat
  /-- Pending backend decode steps (`process_single` consumes one each). -/
  steps : List BackendStep
  /-- Whether the backend has reported `FLAC__STREAM_DECODER_END_OF_STREAM`. -/
  eofSeen : Bool
  deriving DecidableEq, Repr

/-- `ringBufferCapacity = 2 * 2 * 4 * 4096` (flac.go). -/
def ringBufferCapacity : Nat := 2 * 2 * 4 * 4096

/-- Ring buffer `Write`. Modelled from the spec: fails with
`InsufficientSpace` when the data exceeds the free space, otherwise appends
all bytes atomically. -/
def ringWrite (ring bs : List Nat) : Option (List Nat) :=
  if ringBufferCapacity < ring.length + bs.length then none else some (ring ++ bs)

/-- Embedding of `setError` (flac.go): latch the error only when no error is
already stored. -/
def setError (st : DecState) (e : Err) : DecState :=
  match st.lastError with
  | none => { st with lastError := some e }
  | some _ => st

/-- Embedding of `decoderErrorCallback` (flac.go). Note the direct assignment
`dec.lastError = fmt.Errorf(...)`, not a call to `setError`. -/
def decoderErrorCallback (st : DecState) (status : Nat) : DecState :=
  { st with lastError := some (.flacDecoderError status) }

/-- The doubly nested interleaving loop of `decoderWriteCallback`:
sample-major outer loop, channel-major inner loop. -/
def interleaveIndices (blocksize chans : Nat) : List (Nat × Nat) :=
  (List.range blocksize).flatMap (fun i => (List.range chans).map (fun ch => (i, ch)))

/-- Body of the interleaving loop of `decoderWriteCallback`: pack each sample
and append it to the ring buffer, aborting (status `false`) on an unsupported
width or a failed ring write, with the error latched via `setError`. -/
def writeFrameLoop (f : Frame) : List (Nat × Nat) → DecState → DecState × Bool
  | [], st => (st, true)
  | (i, ch) :: rest, st =>
    let sample := (f.chans.getD ch []).getD i 0
    match packSample st.streamBytesPerSample st.maxOutputSampleBitDepth sample with
    | none => (setError st (.unsupportedStreamBps st.streamBytesPerSample), false)
    | some bs =>
      match ringWrite st.ring bs with
      | none => (setError st .ringWriteFailed, false)
      | some r => writeFrameLoop f rest { st with ring := r }

/-- Embedding of `decoderWriteCallback` (flac.go). The returned `Bool` is the
write status: `true` for `CONTINUE`, `false` for `ABORT`. -/
def decoderWriteCallback (st : DecState) (f : Frame) : DecState × Bool :=
  if f.blocksize = 0 then (st, true)
  else if st.channels = 0 then (setError st .channelsNotInitialized, false)
  else writeFrameLoop f (interleaveIndices f.blocksize st.channels.toNat) st

/-- One `FLAC__stream_decoder_process_single` call against the modelled
backend: consume the next pending step, running its error callbacks and (if
present) its write callback; with no step left, raise the end-of-stream
flag. The `Bool` is the C call's return value. -/
def processSingle (st : DecState) : DecState × Bool :=
  match st.steps with
  | [] => ({ st with eofSeen := true }, true)
  | step :: rest =>
    match step.frame with
    | none => (step.errs.foldl decoderErrorCallback { st with steps := rest }, step.ok)
    | some f =>
      ((decoderWriteCallback (step.errs.foldl decoderErrorCallback
          { st with steps := rest }) f).1,
        step.ok && (decoderWriteCallback (step.errs.foldl decoderErrorCallback
          { st with steps := rest }) f).2)

/-- Result of one `DecodeSamples` call: the `(samplesRead, error)` pair, or
the Go runtime panic on an out-of-range slice expression
`audio[offset : offset+bytesToRead]`, or exhaustion of the loop fuel (which
`pumpLoop_spec` below proves cannot happen for the fuel
`DecodeSamples` supplies). -/
inductive DecodeOutcome where
  | result (n : Nat) (err : Option Err)
  | panicked
  | fuelOut
  deriving DecidableEq, Repr

/-- The tail of one iteration of the `DecodeSamples` loop, from
`res := C.FLAC__stream_decoder_process_single(...)` to the end of the loop
body: `.inl` is a `return`, `.inr` continues the loop with the new state. -/
def afterProcess (st : DecState) (srd : Nat) : (DecState × DecodeOutcome) ⊕ DecState :=
  let p := processSingle st
  let st3 := p.1
  if p.2 = false then
    match st3.lastError with
    | some e => .inl ({ st3 with lastError := none }, .result srd (some e))
    | none =>
      if st3.eofSeen then
        if 0 < st3.ring.length then .inr st3
        else if 0 < srd then .inl (st3, .result srd none)
        else .inl (st3, .result 0 (some .endOfStream))
      else .inl (st3, .result srd (some .decodeError))
  else
    match st3.lastError with
    | some e => .inl ({ st3 with lastError := none }, .result srd (some e))
    | none => .inr st3

/-- The `for samplesToRead > 0` loop of `DecodeSamples` (flac.go), with
`str`/`srd` the Go locals `samplesToRead`/`samplesRead` and `spb` the
per-sample byte count `d.channels * d.outputBytesPerSample`. -/
def pumpLoop (audioLen spb : Nat) : Nat → DecState → Nat → Nat → DecState × DecodeOutcome
  | 0, st, _, _ => (st, .fuelOut)
  | fuel + 1, st, str, srd =>
    if str = 0 then (st, .result srd none)
    else
      match st.lastError with
      | some e => ({ st with lastError := none }, .result srd (some e))
      | none =>
        let available := st.ring.length
        let availableSamples := available / spb
        if st.eofSeen || decide (str ≤ availableSamples) then
          let offset := srd * spb
          let bytesToRead := if st.eofSeen then available else str * spb
          if audioLen < offset + bytesToRead then (st, .panicked)
          else
            let readBytes := min bytesToRead available
            let readSamples := readBytes / spb
            let st2 := { st with ring := st.ring.drop readBytes,
                                 currentSample := st.currentSample + readSamples }
            let srd2 := srd + readSamples
            let str2 := str - readSamples
            if st.eofSeen then
              if 0 < srd2 then (st2, .result srd2 none)
              else (st2, .result 0 (some .endOfStream))
            else if str2 = 0 then (st2, .result srd2 none)
            else
              match afterProcess st2 srd2 with
              | .inl out => out
              | .inr st3 => pumpLoop audioLen spb fuel st3 str2 srd2
        else
          match afterProcess st srd with
          | .inl out => out
          | .inr st3 => pumpLoop audioLen spb fuel st3 str srd

/-- The largest Go `int` on a 64-bit platform (`int(^uint(0) >> 1)`). -/
def maxGoInt : Int := 2^63 - 1

/-- Embedding of `DecodeSamples` (flac.go): validation, the
`d.lastError = nil` reset, then the decode loop. `audioLen` is `len(audio)`.
Go's `/` on `int` truncates toward zero, hence `Int.tdiv`. -/
def DecodeSamples (st : DecState) (samples : Int) (audioLen : Nat) :
    DecState × DecodeOutcome :=
  if samples ≤ 0 then (st, .result 0 (some .samplesNotPositive))
  else if st.channels ≤ 0 ∨ st.outputBytesPerSample ≤ 0 then
    (st, .result 0 (some .notInitialized))
  else if maxGoInt.tdiv (st.channels * st.outputBytesPerSample) < samples then
    (st, .result 0 (some .overflowErr))
  else if (audioLen : Int) < samples * st.channels * st.outputBytesPerSample then
    (st, .result 0 (some .bufferTooSmall))
  else
    pumpLoop audioLen (st.channels * st.outputBytesPerSample).toNat
      (st.steps.length + 2) { st with lastError := none } samples.toNat 0

/-- Embedding of `TellCurrentSample` (flac.go). -/
def TellCurrentSample (st : DecState) : Int := st.currentSample

/-- Embedding of `TotalSamples` (flac.go). -/
def TotalSamples (st : DecState) : Int := st.totalSamples

/-- Target resolution step of `Seek` (flac.go): `io.SeekStart = 0`,
`io.SeekCurrent = 1`, `io.SeekEnd = 2`. -/
def resolveSeekTarget (st : DecState) (offset : Int) (whence : Nat) : Int :=
  if whence = 1 then st.currentSample + offset
  else if whence = 2 then st.totalSamples + offset
  else offset

/-- Embedding of `Seek` (flac.go). `backendOk` models the result of
`FLAC__stream_decoder_seek_absolute`. Returns the new state and the
`(int64, error)` pair. -/
def Seek (st : DecState) (offset : Int) (whence : Nat) (backendOk : Bool) :
    DecState × Int × Option Err :=
  let seekSample := resolveSeekTarget st offset whence
  if seekSample < 0 then (st, st.currentSample, some .seekNegative)
  else if 0 < st.totalSamples ∧ st.totalSamples ≤ seekSample then
    (st, st.currentSample, some .seekBeyondEnd)
  else
    let st1 := { st with ring := [] }
    if backendOk = false then (st1, st1.currentSample, some .seekFailed)
    else ({ st1 with currentSample := seekSample }, seekSample, none)

/-! ## STREAMINFO serialization (`encoderMetadataCallback`, roundtrip_test.go) -/

/-- The `packed` word of `encoderMetadataCallback`:
`uint64(rate)<<44 | uint64(channels-1)<<41 | uint64(bps-1)<<36 |
uint64(totalSamples)`, with every operand and shift wrapping at 64 bits. -/
def streamInfoPacked (rate channels bps totalSamples : Int) : Nat :=
  ((u64 rate <<< 44) % 2^64) ||| ((u64 (channels - 1) <<< 41) % 2^64) |||
    ((u64 (bps - 1) <<< 36) % 2^64) ||| u64 totalSamples

/-- Serialization of the 34-byte STREAMINFO block performed by
`encoderMetadataCallback` (roundtrip_test.go): big-endian block sizes, frame
sizes and packed word, then the 16 checksum bytes copied from the metadata. -/
def encoderStreamInfo (minBlock maxBlock minFrame maxFrame rate channels bps
    totalSamples : Int) (md5 : List Nat) : List Nat :=
  let packed := streamInfoPacked rate channels bps totalSamples
  [goByte64 minBlock 1, goByte64 minBlock 0,
   goByte64 maxBlock 1, goByte64 maxBlock 0,
   goByte64 minFrame 2, goByte64 minFrame 1, goByte64 minFrame 0,
   goByte64 maxFrame 2, goByte64 maxFrame 1, goByte64 maxFrame 0,
   packed / 2^56 % 2^8, packed / 2^48 % 2^8, packed / 2^40 % 2^8,
   packed / 2^32 % 2^8, packed / 2^24 % 2^8, packed / 2^16 % 2^8,
   packed / 2^8 % 2^8, packed % 2^8] ++ md5

/-! ## Preservation lemmas for the decode pump -/

/-- The fields populated by the metadata callback and at construction, plus
`totalSamples`; the decode pump never changes them. -/
def sameFormat (st st2 : DecState) : Prop :=
  st2.channels = st.channels ∧ st2.outputBytesPerSample = st.outputBytesPerSample ∧
  st2.streamBytesPerSample = st.streamBytesPerSample ∧
  st2.maxOutputSampleBitDepth = st.maxOutputSampleBitDepth ∧
  st2.totalSamples = st.totalSamples

theorem sameFormat_refl (st : DecState) : sameFormat st st :=
  ⟨rfl, rfl, rfl, rfl, rfl⟩

theorem sameFormat_trans {a b c : DecState} (h1 : sameFormat a b) (h2 : sameFormat b c) :
    sameFormat a c := by
  obtain ⟨e1, e2, e3, e4, e5⟩ := h1
  obtain ⟨f1, f2, f3, f4, f5⟩ := h2
  exact ⟨f1.trans e1, f2.trans e2, f3.trans e3, f4.trans e4, f5.trans e5⟩

/-- Everything a decoder callback may change is `lastError` and `ring`. -/
def callbackFrame (st st2 : DecState) : Prop :=
  sameFormat st st2 ∧ st2.currentSample = st.currentSample ∧
  st2.steps = st.steps ∧ st2.eofSeen = st.eofSeen

theorem callbackFrame_refl (st : DecState) : callbackFrame st st :=
  ⟨sameFormat_refl st, rfl, rfl, rfl⟩

theorem callbackFrame_trans {a b c : DecState} (h1 : callbackFrame a b)
    (h2 : callbackFrame b c) : callbackFrame a c :=
  ⟨sameFormat_trans h1.1 h2.1, h2.2.1.trans h1.2.1, h2.2.2.1.trans h1.2.2.1,
    h2.2.2.2.trans h1.2.2.2⟩

theorem setError_callbackFrame (st : DecState) (e : Err) :
    callbackFrame st (setError st e) ∧ (setError st e).ring = st.ring := by
  unfold setError
  cases st.lastError <;> exact ⟨⟨⟨rfl, rfl, rfl, rfl, rfl⟩, rfl, rfl, rfl⟩, rfl⟩

theorem decoderErrorCallback_callbackFrame (st : DecState) (s : Nat) :
    callbackFrame st (decoderErrorCallback st s) ∧ (decoderErrorCallback st s).ring = st.ring :=
  ⟨⟨⟨rfl, rfl, rfl, rfl, rfl⟩, rfl, rfl, rfl⟩, rfl⟩

theorem foldl_errorCallback_callbackFrame (errs : List Nat) :
    ∀ st : DecState, callbackFrame st (errs.foldl decoderErrorCallback st) ∧
      (errs.foldl decoderErrorCallback st).ring = st.ring := by
  induction errs with
  | nil => exact fun st => ⟨callbackFrame_refl st, rfl⟩
  | cons s rest ih =>
    intro st
    have h1 := decoderErrorCallback_callbackFrame st s
    have h2 := ih (decoderErrorCallback st s)
    exact ⟨callbackFrame_trans h1.1 h2.1, h2.2.trans h1.2⟩

theorem writeFrameLoop_callbackFrame (f : Frame) :
    ∀ (l : List (Nat × Nat)) (st : DecState), callbackFrame st (writeFrameLoop f l st).1 := by
  intro l
  induction l with
  | nil => exact fun st => callbackFrame_refl st
  | cons p rest ih =>
    intro st
    obtain ⟨i, ch⟩ := p
    cases hps : packSample st.streamBytesPerSample st.maxOutputSampleBitDepth
        ((f.chans.getD ch []).getD i 0) with
    | none =>
      simp only [writeFrameLoop, hps]
      exact (setError_callbackFrame st _).1
    | some bs =>
      cases hrw : ringWrite st.ring bs with
      | none =>
        simp only [writeFrameLoop, hps, hrw]
        exact (setError_callbackFrame st _).1
      | some r =>
        simp only [writeFrameLoop, hps, hrw]
        have hnext := ih { st with ring := r }
        exact callbackFrame_trans ⟨⟨rfl, rfl, rfl, rfl, rfl⟩, rfl, rfl, rfl⟩ hnext

theorem decoderWriteCallback_callbackFrame (st : DecState) (f : Frame) :
    callbackFrame st (decoderWriteCallback st f).1 := by
  unfold decoderWriteCallback
  split_ifs with h1 h2
  · exact callbackFrame_refl st
  · exact (setError_callbackFrame st _).1
  · exact writeFrameLoop_callbackFrame f _ st

/-- Characterization of one `process_single` call: either the backend is
exhausted (end-of-stream is raised, nothing else changes), or exactly one
pending step is consumed and only callback-reachable state changes. -/
theorem processSingle_spec (st : DecState) :
    (st.steps = [] ∧ processSingle st = ({ st with eofSeen := true }, true)) ∨
    (st.steps ≠ [] ∧ sameFormat st (processSingle st).1 ∧
      (processSingle st).1.currentSample = st.currentSample ∧
      (processSingle st).1.eofSeen = st.eofSeen ∧
      (processSingle st).1.steps = st.steps.tail) := by
  cases hs : st.steps with
  | nil =>
    left
    refine ⟨rfl, ?_⟩
    unfold processSingle
    rw [hs]
  | cons step rest =>
    right
    have hcb1 := foldl_errorCallback_callbackFrame step.errs { st with steps := rest }
    obtain ⟨⟨hsf1, hcur1, hsteps1, heof1⟩, _⟩ := hcb1
    cases hf : step.frame with
    | none =>
      have hps : processSingle st =
          (step.errs.foldl decoderErrorCallback { st with steps := rest }, step.ok) := by
        simp only [processSingle, hs, hf]
      rw [hps]
      exact ⟨by simp, hsf1, hcur1, heof1, hsteps1⟩
    | some f =>
      have hps : processSingle st =
          ((decoderWriteCallback (step.errs.foldl decoderErrorCallback
              { st with steps := rest }) f).1,
            step.ok && (decoderWriteCallback (step.errs.foldl decoderErrorCallback
              { st with steps := rest }) f).2) := by
        simp only [processSingle, hs, hf]
      rw [hps]
      have hcb2 := decoderWriteCallback_callbackFrame
        (step.errs.foldl decoderErrorCallback { st with steps := rest }) f
      obtain ⟨hsf2, hcur2, hsteps2, heof2⟩ := hcb2
      refine ⟨by simp, sameFormat_trans hsf1 hsf2, hcur2.trans hcur1,
        heof2.trans heof1, hsteps2.trans hsteps1⟩

/-- Behaviour of the tail of one loop iteration when no error is pending and
end-of-stream has not been seen: either the iteration returns
`(samplesRead, some error)` without touching position or format, or the loop
continues with a state that consumed one backend step or has just seen
end-of-stream with the ring buffer untouched. -/
theorem afterProcess_spec (st : DecState) (srd : Nat) (hle : st.lastError = none)
    (heof : st.eofSeen = false) :
    (∃ st2 e, afterProcess st srd = .inl (st2, .result srd (some e)) ∧
      sameFormat st st2 ∧ st2.currentSample = st.currentSample ∧ st2.eofSeen = false) ∨
    (∃ st2, afterProcess st srd = .inr st2 ∧ st2.lastError = none ∧
      sameFormat st st2 ∧ st2.currentSample = st.currentSample ∧
      ((st2.eofSeen = true ∧ st.steps = [] ∧ st2.steps = [] ∧ st2.ring = st.ring) ∨
       (st2.eofSeen = false ∧ st2.steps.length + 1 = st.steps.length))) := by
  rcases hps : processSingle st with ⟨st3, res⟩
  have hspec := processSingle_spec st
  rw [hps] at hspec
  rcases hspec with ⟨hnil, heq⟩ | ⟨hne, hsf, hcur, heofe, hsteps⟩
  · have h3 : st3 = { st with eofSeen := true } := congrArg Prod.fst heq
    have hres : res = true := congrArg Prod.snd heq
    have h3le : st3.lastError = none := by rw [h3]; exact hle
    have hval : afterProcess st srd = .inr st3 := by
      simp [afterProcess, hps, hres, h3le]
    right
    refine ⟨st3, hval, h3le, ?_, ?_, ?_⟩
    · rw [h3]; exact ⟨rfl, rfl, rfl, rfl, rfl⟩
    · rw [h3]
    · left
      rw [h3]
      exact ⟨rfl, hnil, hnil, rfl⟩
  · have heof3 : st3.eofSeen = false := heofe.trans heof
    cases hres : res with
    | false =>
      cases hle3 : st3.lastError with
      | some e =>
        have hval : afterProcess st srd =
            .inl ({ st3 with lastError := none }, .result srd (some e)) := by
          simp [afterProcess, hps, hres, hle3]
        left
        refine ⟨{ st3 with lastError := none }, e, hval, ?_, ?_, ?_⟩
        · exact sameFormat_trans hsf ⟨rfl, rfl, rfl, rfl, rfl⟩
        · exact hcur
        · exact heof3
      | none =>
        have hval : afterProcess st srd = .inl (st3, .result srd (some .decodeError)) := by
          simp [afterProcess, hps, hres, hle3, heof3]
        left
        exact ⟨st3, .decodeError, hval, hsf, hcur, heof3⟩
    | true =>
      cases hle3 : st3.lastError with
      | some e =>
        have hval : afterProcess st srd =
            .inl ({ st3 with lastError := none }, .result srd (some e)) := by
          simp [afterProcess, hps, hres, hle3]
        left
        refine ⟨{ st3 with lastError := none }, e, hval, ?_, ?_, ?_⟩
        · exact sameFormat_trans hsf ⟨rfl, rfl, rfl, rfl, rfl⟩
        · exact hcur
        · exact heof3
      | none =>
        have hval : afterProcess st srd = .inr st3 := by
          simp [afterProcess, hps, hres, hle3]
        right
        refine ⟨st3, hval, hle3, hsf, hcur, Or.inr ⟨heof3, ?_⟩⟩
        rw [hsteps]
        cases hst : st.steps with
        | nil => exact absurd hst hne
        | cons a l => simp

/-- Master specification of the `DecodeSamples` loop. Under the decoder
invariant (end-of-stream seen implies no pending backend work and, at loop
granularity, at most one request's worth of buffered bytes), with no pending
error and a destination buffer covering the full request, the loop always
returns a `(samplesRead, err)` result (never a slice panic, never fuel
exhaustion), delivers between `srd` and `srd + str` samples, advances
`currentSample` by exactly the newly delivered count, preserves the format
fields, and, when it ends with end-of-stream seen, leaves backend and ring
empty and reports either `(0, io.EOF)` or a positive count with `nil`
error. -/
theorem pumpLoop_spec (audioLen spb : Nat) (hspb : 0 < spb) :
    ∀ (fuel : Nat) (st : DecState) (str srd : Nat) (st' : DecState) (out : DecodeOutcome),
      0 < str →
      st.lastError = none →
      (st.eofSeen = true → st.steps = [] ∧ st.ring.length ≤ str * spb) →
      (srd + str) * spb ≤ audioLen →
      (if st.eofSeen then 1 else st.steps.length + 2) ≤ fuel →
      pumpLoop audioLen spb fuel st str srd = (st', out) →
      ∃ n r, out = .result n r ∧ srd ≤ n ∧ n ≤ srd + str ∧
        st'.currentSample = st.currentSample + ((n - srd : Nat) : Int) ∧
        sameFormat st st' ∧
        (st'.eofSeen = true → st'.steps = [] ∧ st'.ring = []) ∧
        (st'.eofSeen = true → ((n = 0 ∧ r = some .endOfStream) ∨ (0 < n ∧ r = none))) := by
  intro fuel
  induction fuel with
  | zero =>
    intro st str srd st' out hstr hle hinv haudio hfuel hrun
    split_ifs at hfuel <;> omega
  | succ fuel ih =>
    intro st str srd st' out hstr hle hinv haudio hfuel hrun
    rw [pumpLoop] at hrun
    rw [if_neg (by omega : ¬ str = 0), hle] at hrun
    have hd : (srd + str) * spb = srd * spb + str * spb := Nat.add_mul srd str spb
    cases heof : st.eofSeen with
    | true =>
      obtain ⟨hsteps0, hringle⟩ := hinv heof
      simp only [heof, Bool.true_or, if_true, Nat.min_self, List.drop_length] at hrun
      have hnp : ¬ (audioLen < srd * spb + st.ring.length) := by omega
      rw [if_neg hnp] at hrun
      have hrs : st.ring.length / spb ≤ str := by
        have h1 := Nat.div_le_div_right (c := spb) hringle
        rwa [Nat.mul_div_cancel str hspb] at h1
      generalize hgen : st.ring.length / spb = rs at hrun hrs
      by_cases hsrd2 : 0 < srd + rs
      · rw [if_pos hsrd2] at hrun
        obtain ⟨h1, h2⟩ := Prod.mk.injEq .. |>.mp hrun
        refine ⟨srd + rs, none, h2.symm, by omega, by omega, ?_, ?_, ?_, ?_⟩
        · rw [← h1]
          simp only []
          congr 1
          omega
        · rw [← h1]; exact ⟨rfl, rfl, rfl, rfl, rfl⟩
        · rw [← h1]
          intro _
          exact ⟨hsteps0, rfl⟩
        · rw [← h1]
          intro _
          exact Or.inr ⟨hsrd2, rfl⟩
      · rw [if_neg hsrd2] at hrun
        obtain ⟨h1, h2⟩ := Prod.mk.injEq .. |>.mp hrun
        refine ⟨0, some .endOfStream, h2.symm, by omega, by omega, ?_, ?_, ?_, ?_⟩
        · rw [← h1]
          simp only []
          omega
        · rw [← h1]; exact ⟨rfl, rfl, rfl, rfl, rfl⟩
        · rw [← h1]
          intro _
          exact ⟨hsteps0, rfl⟩
        · rw [← h1]
          intro _
          exact Or.inl ⟨rfl, rfl⟩
    | false =>
      simp only [heof, Bool.false_or] at hrun
      by_cases henough : str ≤ st.ring.length / spb
      · rw [if_pos (by simpa using henough)] at hrun
        simp only [heof, Bool.false_eq_true, if_false] at hrun
        have hbyt : str * spb ≤ st.ring.length := (Nat.le_div_iff_mul_le hspb).mp henough
        have hnp : ¬ (audioLen < srd * spb + str * spb) := by omega
        rw [if_neg hnp] at hrun
        rw [Nat.min_eq_left hbyt, Nat.mul_div_cancel str hspb] at hrun
        rw [if_pos (Nat.sub_self str)] at hrun
        obtain ⟨h1, h2⟩ := Prod.mk.injEq .. |>.mp hrun
        refine ⟨srd + str, none, h2.symm, by omega, by omega, ?_, ?_, ?_, ?_⟩
        · rw [← h1]
          simp only []
          congr 1
          omega
        · rw [← h1]; exact ⟨rfl, rfl, rfl, rfl, rfl⟩
        · rw [← h1]
          intro hcontra
          exact absurd hcontra (by simp)
        · rw [← h1]
          intro hcontra
          exact absurd hcontra (by simp)
      · rw [if_neg (by simpa using henough)] at hrun
        have havail : st.ring.length < str * spb :=
          (Nat.div_lt_iff_lt_mul hspb).mp (Nat.lt_of_not_le henough)
        rcases afterProcess_spec st srd hle heof with
          ⟨st2, e, hval, hsf2, hcur2, heof2⟩ | ⟨st2, hval, hle2, hsf2, hcur2, hcase⟩
        · rw [hval] at hrun
          obtain ⟨h1, h2⟩ := Prod.mk.injEq .. |>.mp hrun
          refine ⟨srd, some e, h2.symm, le_refl srd, by omega, ?_, ?_, ?_, ?_⟩
          · rw [← h1, hcur2]
            simp
          · rw [← h1]; exact hsf2
          · rw [← h1, heof2]
            intro hcontra
            exact absurd hcontra (by simp)
          · rw [← h1, heof2]
            intro hcontra
            exact absurd hcontra (by simp)
        · rw [hval] at hrun
          have hprem2 : st2.eofSeen = true → st2.steps = [] ∧ st2.ring.length ≤ str * spb := by
            intro he2
            rcases hcase with ⟨_, _, hst2, hr2⟩ | ⟨hf2, _⟩
            · exact ⟨hst2, by rw [hr2]; omega⟩
            · rw [hf2] at he2
              exact absurd he2 (by simp)
          have hfuel2 : (if st2.eofSeen then 1 else st2.steps.length + 2) ≤ fuel := by
            rw [heof] at hfuel
            simp only [Bool.false_eq_true, if_false] at hfuel
            rcases hcase with ⟨he2, _, _, _⟩ | ⟨hf2, hlen2⟩
            · rw [he2]
              simp only [if_true]
              omega
            · rw [hf2]
              simp only [Bool.false_eq_true, if_false]
              omega
          obtain ⟨n, r, hout, hn1, hn2, hcur3, hsf3, hR4, hR5⟩ :=
            ih st2 str srd st' out hstr hle2 hprem2 haudio hfuel2 hrun
          refine ⟨n, r, hout, hn1, hn2, ?_, sameFormat_trans hsf2 hsf3, hR4, hR5⟩
          rw [hcur3, hcur2]

/-- Decoder invariant between `DecodeSamples` calls: once end-of-stream has
been observed, no backend step is pending and the ring buffer is empty. It
holds after `Open` (which clears everything) and is preserved by every
`DecodeSamples` call (`DecodeSamples_spec`). -/
def decInv (st : DecState) : Prop := st.eofSeen = true → st.steps = [] ∧ st.ring = []

theorem toNat_pos_of_pos {a : Int} (h : 0 < a) : 0 < a.toNat := by omega

/-- Bridge from `DecodeSamples` to the loop specification: when all four
validation guards pass, the call returns a `(samplesRead, err)` result with
the guarantees of `pumpLoop_spec`. -/
theorem DecodeSamples_spec (st : DecState) (samples : Int) (audioLen : Nat)
    (st' : DecState) (out : DecodeOutcome)
    (hinv : decInv st)
    (h1 : ¬ samples ≤ 0)
    (h2 : ¬ (st.channels ≤ 0 ∨ st.outputBytesPerSample ≤ 0))
    (h3 : ¬ maxGoInt.tdiv (st.channels * st.outputBytesPerSample) < samples)
    (h4 : ¬ ((audioLen : Int) < samples * st.channels * st.outputBytesPerSample))
    (hrun : DecodeSamples st samples audioLen = (st', out)) :
    ∃ n r, out = .result n r ∧ n ≤ samples.toNat ∧
      st'.currentSample = st.currentSample + (n : Int) ∧ sameFormat st st' ∧
      (st'.eofSeen = true → st'.steps = [] ∧ st'.ring = []) ∧
      (st'.eofSeen = true → ((n = 0 ∧ r = some .endOfStream) ∨ (0 < n ∧ r = none))) := by
  rw [DecodeSamples, if_neg h1, if_neg h2, if_neg h3, if_neg h4] at hrun
  push_neg at h2
  have hco : (0 : Int) < st.channels * st.outputBytesPerSample :=
    mul_pos h2.1 h2.2
  have hspb : 0 < (st.channels * st.outputBytesPerSample).toNat := toNat_pos_of_pos hco
  have haudio : (0 + samples.toNat) * (st.channels * st.outputBytesPerSample).toNat ≤
      audioLen := by
    have e1 : (samples.toNat : Int) = samples := Int.toNat_of_nonneg (by omega)
    have e2 : (((st.channels * st.outputBytesPerSample).toNat : Nat) : Int) =
        st.channels * st.outputBytesPerSample := Int.toNat_of_nonneg (le_of_lt hco)
    have hle4 : samples * st.channels * st.outputBytesPerSample ≤ (audioLen : Int) := by omega
    have hcast : ((samples.toNat * (st.channels * st.outputBytesPerSample).toNat : Nat) : Int) ≤
        (audioLen : Int) := by
      push_cast
      rw [e1, e2, ← mul_assoc]
      exact hle4
    rw [Nat.zero_add]
    exact_mod_cast hcast
  obtain ⟨n, r, hout, hn1, hn2, hcur, hsf, hR4, hR5⟩ :=
    pumpLoop_spec audioLen (st.channels * st.outputBytesPerSample).toNat hspb
      (st.steps.length + 2) { st with lastError := none } samples.toNat 0 st' out
      (by omega) rfl
      (by intro he
          obtain ⟨hs, hr⟩ := hinv he
          exact ⟨hs, by rw [hr]; simp⟩)
      haudio
      (by show (if st.eofSeen = true then 1 else st.steps.length + 2) ≤ st.steps.length + 2
          split_ifs <;> omega)
      hrun
  refine ⟨n, r, hout, by omega, ?_, hsf, hR4, hR5⟩
  rw [hcur]
  show st.currentSample + ((n - 0 : Nat) : Int) = st.currentSample + (n : Int)
  norm_num

/-- Claim C7: `DecodeSamples` rejects invalid requests before invoking the
backend and with no state change: a non-positive sample count, an
uninitialized format (non-positive `channels` or `outputBytesPerSample`), a
byte requirement `count * channels * outputBytesPerSample` exceeding the
platform `int`, or a destination buffer smaller than the byte requirement
each produce `(0, error)` with the decoder state (ring buffer, backend,
`currentSample`) untouched. -/
theorem DecodeSamples_validation (st : DecState) (samples : Int) (audioLen : Nat)
    (h : samples ≤ 0 ∨ st.channels ≤ 0 ∨ st.outputBytesPerSample ≤ 0 ∨
      maxGoInt < samples * st.channels * st.outputBytesPerSample ∨
      (audioLen : Int) < samples * st.channels * st.outputBytesPerSample) :
    ∃ e, DecodeSamples st samples audioLen = (st, .result 0 (some e)) := by
  by_cases g1 : samples ≤ 0
  · exact ⟨.samplesNotPositive, by rw [DecodeSamples, if_pos g1]⟩
  by_cases g2 : st.channels ≤ 0 ∨ st.outputBytesPerSample ≤ 0
  · exact ⟨.notInitialized, by rw [DecodeSamples, if_neg g1, if_pos g2]⟩
  by_cases g3 : maxGoInt.tdiv (st.channels * st.outputBytesPerSample) < samples
  · exact ⟨.overflowErr, by rw [DecodeSamples, if_neg g1, if_neg g2, if_pos g3]⟩
  by_cases g4 : (audioLen : Int) < samples * st.channels * st.outputBytesPerSample
  · exact ⟨.bufferTooSmall, by rw [DecodeSamples, if_neg g1, if_neg g2, if_neg g3, if_pos g4]⟩
  exfalso
  push_neg at g2
  have hco : (0 : Int) < st.channels * st.outputBytesPerSample := mul_pos g2.1 g2.2
  have hdiv : maxGoInt.tdiv (st.channels * st.outputBytesPerSample) =
      maxGoInt / (st.channels * st.outputBytesPerSample) :=
    Int.tdiv_eq_ediv (by norm_num [maxGoInt]) (le_of_lt hco)
  rw [hdiv] at g3
  have hlt : ¬ maxGoInt < samples * st.channels * st.outputBytesPerSample := by
    intro hcontra
    apply g3
    rw [Int.ediv_lt_iff_lt_mul hco, mul_comm samples (st.channels * st.outputBytesPerSample)]
    calc maxGoInt < samples * st.channels * st.outputBytesPerSample := hcontra
      _ = st.channels * st.outputBytesPerSample * samples := by ring
  rcases h with h | h | h | h | h
  · exact g1 h
  · omega
  · omega
  · exact hlt h
  · exact g4 h

/-- Claim C10: position bookkeeping is consistent with delivery: every
`DecodeSamples` call that returns a count `n` (with or without an error)
satisfies `0 ≤ n`, `n` never exceeds a positive request (and is `0` for a
non-positive request), and `TellCurrentSample` advances by exactly `n`. -/
theorem DecodeSamples_position (st : DecState) (samples : Int) (audioLen : Nat)
    (st' : DecState) (n : Nat) (r : Option Err)
    (hinv : decInv st)
    (hrun : DecodeSamples st samples audioLen = (st', .result n r)) :
    (0 : Int) ≤ (n : Int) ∧ (0 < samples → (n : Int) ≤ samples) ∧
      (samples ≤ 0 → n = 0) ∧
      TellCurrentSample st' = TellCurrentSample st + (n : Int) := by
  by_cases g1 : samples ≤ 0
  · rw [DecodeSamples, if_pos g1] at hrun
    obtain ⟨e1, e2⟩ := Prod.mk.injEq .. |>.mp hrun
    obtain ⟨e3, _⟩ := DecodeOutcome.result.injEq .. |>.mp e2
    refine ⟨by omega, by omega, fun _ => e3.symm, ?_⟩
    rw [← e1, ← e3]
    simp [TellCurrentSample]
  by_cases g2 : st.channels ≤ 0 ∨ st.outputBytesPerSample ≤ 0
  · rw [DecodeSamples, if_neg g1, if_pos g2] at hrun
    obtain ⟨e1, e2⟩ := Prod.mk.injEq .. |>.mp hrun
    obtain ⟨e3, _⟩ := DecodeOutcome.result.injEq .. |>.mp e2
    refine ⟨by omega, ?_, fun hx => absurd hx g1, ?_⟩
    · intro _
      rw [← e3]
      omega
    · rw [← e1, ← e3]
      simp [TellCurrentSample]
  by_cases g3 : maxGoInt.tdiv (st.channels * st.outputBytesPerSample) < samples
  · rw [DecodeSamples, if_neg g1, if_neg g2, if_pos g3] at hrun
    obtain ⟨e1, e2⟩ := Prod.mk.injEq .. |>.mp hrun
    obtain ⟨e3, _⟩ := DecodeOutcome.result.injEq .. |>.mp e2
    refine ⟨by omega, ?_, fun hx => absurd hx g1, ?_⟩
    · intro _
      rw [← e3]
      omega
    · rw [← e1, ← e3]
      simp [TellCurrentSample]
  by_cases g4 : (audioLen : Int) < samples * st.channels * st.outputBytesPerSample
  · rw [DecodeSamples, if_neg g1, if_neg g2, if_neg g3, if_pos g4] at hrun
    obtain ⟨e1, e2⟩ := Prod.mk.injEq .. |>.mp hrun
    obtain ⟨e3, _⟩ := DecodeOutcome.result.injEq .. |>.mp e2
    refine ⟨by omega, ?_, fun hx => absurd hx g1, ?_⟩
    · intro _
      rw [← e3]
      omega
    · rw [← e1, ← e3]
      simp [TellCurrentSample]
  obtain ⟨n2, r2, hout, hn1, hcur, _, _, _⟩ :=
    DecodeSamples_spec st samples audioLen st' (.result n r) hinv g1 g2 g3 g4 hrun
  obtain ⟨e3, _⟩ := DecodeOutcome.result.injEq .. |>.mp hout.symm
  refine ⟨by omega, ?_, fun hx => absurd hx g1, ?_⟩
  · intro _
    have : (samples.toNat : Int) = samples := Int.toNat_of_nonneg (by omega)
    omega
  · rw [TellCurrentSample, TellCurrentSample, hcur, e3]

/-- A `DecodeSamples` call on a decoder that has already seen end-of-stream
and holds no buffered bytes reports `(0, io.EOF)` (for any valid request). -/
theorem DecodeSamples_at_eof (st : DecState) (samples : Int) (audioLen : Nat)
    (heof : st.eofSeen = true) (hring : st.ring = [])
    (h1 : ¬ samples ≤ 0)
    (h2 : ¬ (st.channels ≤ 0 ∨ st.outputBytesPerSample ≤ 0))
    (h3 : ¬ maxGoInt.tdiv (st.channels * st.outputBytesPerSample) < samples)
    (h4 : ¬ ((audioLen : Int) < samples * st.channels * st.outputBytesPerSample)) :
    (DecodeSamples st samples audioLen).2 = .result 0 (some .endOfStream) := by
  rw [DecodeSamples, if_neg h1, if_neg h2, if_neg h3, if_neg h4,
    show st.steps.length + 2 = (st.steps.length + 1) + 1 from rfl, pumpLoop,
    if_neg (by omega : ¬ samples.toNat = 0)]
  simp [heof, hring]

/-- Claim C2: end-of-stream semantics of `DecodeSamples`. For any valid call
on a decoder satisfying the invariant whose result state has seen
end-of-stream: if zero samples were delivered, the call returns
`(0, io.EOF)`; if some samples were delivered, it returns them with a `nil`
error and the next (valid) call returns `(0, io.EOF)` — partial data is never
discarded and EOF is never reported together with delivered samples. -/
theorem DecodeSamples_eof_semantics (st : DecState) (samples : Int) (audioLen : Nat)
    (st' : DecState) (n : Nat) (r : Option Err)
    (hinv : decInv st)
    (h1 : ¬ samples ≤ 0)
    (h2 : ¬ (st.channels ≤ 0 ∨ st.outputBytesPerSample ≤ 0))
    (h3 : ¬ maxGoInt.tdiv (st.channels * st.outputBytesPerSample) < samples)
    (h4 : ¬ ((audioLen : Int) < samples * st.channels * st.outputBytesPerSample))
    (hrun : DecodeSamples st samples audioLen = (st', .result n r))
    (heof : st'.eofSeen = true) :
    (n = 0 → r = some .endOfStream) ∧
    (0 < n → r = none ∧
      ∀ (samples2 : Int) (audioLen2 : Nat),
        ¬ samples2 ≤ 0 →
        ¬ maxGoInt.tdiv (st'.channels * st'.outputBytesPerSample) < samples2 →
        ¬ ((audioLen2 : Int) < samples2 * st'.channels * st'.outputBytesPerSample) →
        (DecodeSamples st' samples2 audioLen2).2 = .result 0 (some .endOfStream)) := by
  obtain ⟨n2, r2, hout, _, _, hsf, hR4, hR5⟩ :=
    DecodeSamples_spec st samples audioLen st' (.result n r) hinv h1 h2 h3 h4 hrun
  obtain ⟨hn, hr⟩ := DecodeOutcome.result.injEq .. |>.mp hout
  subst hn
  subst hr
  obtain ⟨hsteps, hring⟩ := hR4 heof
  rcases hR5 heof with ⟨hz, he⟩ | ⟨hpos, he⟩
  · exact ⟨fun _ => he, fun hc => absurd hz (by omega)⟩
  · refine ⟨fun hc => absurd hc (by omega), fun _ => ⟨he, ?_⟩⟩
    intro samples2 audioLen2 g1 g3 g4
    have g2 : ¬ (st'.channels ≤ 0 ∨ st'.outputBytesPerSample ≤ 0) := by
      obtain ⟨e1, e2, _, _, _⟩ := hsf
      rw [e1, e2]
      exact h2
    exact DecodeSamples_at_eof st' samples2 audioLen2 heof hring g1 g2 g3 g4

/-- Claim C5: `Seek` resolves its target to an absolute sample index
(`offset` from start, `currentSample + offset` relative to current,
`totalSamples + offset` relative to end) and fails without changing any state
when the resolved index is negative or, when the total length is known,
at least `totalSamples`; a resolved index of exactly `totalSamples - 1`
passes validation and (with a successful backend) commits. -/
theorem Seek_validation (st : DecState) (offset : Int) (whence : Nat) (backendOk : Bool) :
    (resolveSeekTarget st offset 0 = offset ∧
     resolveSeekTarget st offset 1 = st.currentSample + offset ∧
     resolveSeekTarget st offset 2 = st.totalSamples + offset) ∧
    ((resolveSeekTarget st offset whence < 0 ∨
      (0 < st.totalSamples ∧ st.totalSamples ≤ resolveSeekTarget st offset whence)) →
      ∃ e, Seek st offset whence backendOk = (st, st.currentSample, some e)) ∧
    (resolveSeekTarget st offset whence = st.totalSamples - 1 → 0 < st.totalSamples →
      Seek st offset whence true =
        ({ st with ring := [], currentSample := st.totalSamples - 1 },
          st.totalSamples - 1, none)) := by
  refine ⟨⟨rfl, rfl, by rw [resolveSeekTarget]; norm_num⟩, ?_, ?_⟩
  · intro h
    by_cases hneg : resolveSeekTarget st offset whence < 0
    · exact ⟨.seekNegative, by rw [Seek, if_pos hneg]⟩
    · refine ⟨.seekBeyondEnd, ?_⟩
      rw [Seek, if_neg hneg, if_pos ?_]
      rcases h with h | h
      · exact absurd h hneg
      · exact h
  · intro htgt htot
    rw [Seek, if_neg (by omega), if_neg (by omega), if_neg (by simp), htgt]

/-- Claim C6: seek is all-or-nothing with respect to position. When the
backend's absolute-seek primitive fails, `Seek` returns an error and
`currentSample` is unchanged (and returned); when validation passes and the
backend succeeds, `currentSample` is set to the resolved target, which is
returned. -/
theorem Seek_all_or_nothing (st : DecState) (offset : Int) (whence : Nat) :
    ((Seek st offset whence false).1.currentSample = st.currentSample ∧
     (Seek st offset whence false).2.1 = st.currentSample ∧
     (Seek st offset whence false).2.2.isSome = true) ∧
    (0 ≤ resolveSeekTarget st offset whence →
     (0 < st.totalSamples → resolveSeekTarget st offset whence < st.totalSamples) →
     Seek st offset whence true =
       ({ st with ring := [], currentSample := resolveSeekTarget st offset whence },
        resolveSeekTarget st offset whence, none)) := by
  constructor
  · rw [Seek]
    split_ifs <;> simp_all
  · intro h1 h2
    rw [Seek, if_neg (by omega), if_neg ?_, if_neg (by simp)]
    intro ⟨ha, hb⟩
    exact absurd hb (by have := h2 ha; omega)

/-- Claim C1 (counterexample): the latched error register is not
first-error-wins. First run: two error-callback invocations during one
`process_single` call, statuses `0` ("lost sync") then `1` ("bad header");
`DecodeSamples` reports the second, not the first. Second run: an error
latched before the call (as the metadata pass of `Open` can leave behind) is
discarded unread by the `d.lastError = nil` reset at the top of
`DecodeSamples`, which reports `io.EOF` instead of the latched error. -/
theorem lastError_not_first_wins :
    (DecodeSamples
        { channels := 1, outputBytesPerSample := 1, streamBytesPerSample := 1,
          maxOutputSampleBitDepth := 8, currentSample := 0, totalSamples := 0,
          lastError := none, ring := [], steps := [⟨[0, 1], none, false⟩],
          eofSeen := false } 1 8).2 = .result 0 (some (.flacDecoderError 1)) ∧
    Err.flacDecoderError 1 ≠ Err.flacDecoderError 0 ∧
    (DecodeSamples
        { channels := 1, outputBytesPerSample := 1, streamBytesPerSample := 1,
          maxOutputSampleBitDepth := 8, currentSample := 0, totalSamples := 0,
          lastError := some (.flacDecoderError 5), ring := [], steps := [],
          eofSeen := true } 1 8).2 = .result 0 (some .endOfStream) := by
  refine ⟨?_, by decide, ?_⟩ <;> decide

/-- Claim C1 (amended): `setError` itself is first-error-wins (it latches
only when the register is empty), but `decoderErrorCallback` stores
unconditionally, so when several backend errors arrive before the pump reads
the register the error reported by `DecodeSamples` is the most recently
stored one; moreover `DecodeSamples` discards any unread latched error at
entry (`d.lastError = nil`), so a pre-latched error is never reported. -/
theorem lastError_latch_amended :
    (∀ (st : DecState) (e : Err), st.lastError = none →
       setError st e = { st with lastError := some e }) ∧
    (∀ (st : DecState) (e e2 : Err), st.lastError = some e → setError st e2 = st) ∧
    (∀ (st : DecState) (s : Nat),
       decoderErrorCallback st s = { st with lastError := some (.flacDecoderError s) }) ∧
    (∀ (st : DecState) (s1 s2 : Nat) (samples : Int) (audioLen : Nat),
       st.steps = [⟨[s1, s2], none, false⟩] → st.eofSeen = false → st.ring = [] →
       ¬ samples ≤ 0 →
       ¬ (st.channels ≤ 0 ∨ st.outputBytesPerSample ≤ 0) →
       ¬ maxGoInt.tdiv (st.channels * st.outputBytesPerSample) < samples →
       ¬ ((audioLen : Int) < samples * st.channels * st.outputBytesPerSample) →
       (DecodeSamples st samples audioLen).2 = .result 0 (some (.flacDecoderError s2))) ∧
    (∀ (st : DecState) (e : Err) (samples : Int) (audioLen : Nat),
       ¬ samples ≤ 0 →
       ¬ (st.channels ≤ 0 ∨ st.outputBytesPerSample ≤ 0) →
       ¬ maxGoInt.tdiv (st.channels * st.outputBytesPerSample) < samples →
       ¬ ((audioLen : Int) < samples * st.channels * st.outputBytesPerSample) →
       DecodeSamples { st with lastError := some e } samples audioLen =
         DecodeSamples { st with lastError := none } samples audioLen) := by
  refine ⟨?_, ?_, ?_, ?_, ?_⟩
  · intro st e h
    rw [setError, h]
  · intro st e e2 h
    rw [setError, h]
  · intro st s
    rfl
  · intro st s1 s2 samples audioLen hsteps heof hring h1 h2 h3 h4
    rw [DecodeSamples, if_neg h1, if_neg h2, if_neg h3, if_neg h4,
      show st.steps.length + 2 = (st.steps.length + 1) + 1 from rfl, pumpLoop,
      if_neg (by omega : ¬ samples.toNat = 0)]
    simp [afterProcess, processSingle, hsteps, heof, hring, decoderErrorCallback,
      show ¬ samples.toNat ≤ 0 from by omega]
  · intro st e samples audioLen h1 h2 h3 h4
    rw [DecodeSamples, DecodeSamples, if_neg h1, if_neg h1, if_neg h2, if_neg h2,
      if_neg h3, if_neg h3, if_neg h4, if_neg h4]

/-- Claim C3: sample packing and unpacking are mutually inverse. For every
byte width `w ∈ {1,2,3,4}` and every `x` in the signed range of width `w`,
packing `x` as the decoder write callback does (width-`w` little-endian
two's-complement bytes; for `w = 3` via `int32toInt24LEBytes` at 24-bit
output depth) and unpacking with `PCMToInt32` at bit depth `8*w` yields `x`
again. -/
theorem packSample_PCMToInt32_roundtrip (w : Nat)
    (hw : w = 1 ∨ w = 2 ∨ w = 3 ∨ w = 4) (x : Int)
    (hlo : -(2^(8*w-1)) ≤ x) (hhi : x < 2^(8*w-1)) :
    ∃ bs, packSample (w : Int) ((8*w : Nat) : Int) x = some bs ∧
      PCMToInt32 bs ((8*w : Nat) : Int) [0] = some (1, [x]) := by
  rcases hw with hw | hw | hw | hw <;> subst hw
  · refine ⟨[goByte x 0], rfl, ?_⟩
    have h := pcmDecodeOne_int8 x 0 hlo hhi
    simp only [PCMToInt32, List.length_cons, List.length_nil]
    norm_num [pcmLoop, h]
  · refine ⟨[goByte x 0, goByte x 1], rfl, ?_⟩
    have h := pcmDecodeOne_int16 x 0 hlo hhi
    simp only [PCMToInt32, List.length_cons, List.length_nil]
    norm_num [pcmLoop, h, show Int.tdiv 16 8 = 2 from rfl, show Int.tdiv 2 2 = 1 from rfl]
  · refine ⟨[goByte x 0, goByte x 1, goByte x 2], ?_, ?_⟩
    · rw [show packSample ((3 : Nat) : Int) ((8*3 : Nat) : Int) x =
          some (int32toInt24LEBytes x) from rfl, int32toInt24LEBytes_eq_goBytes]
    · have h := pcmDecodeOne_int24 x 0 hlo hhi
      simp only [PCMToInt32, List.length_cons, List.length_nil]
      norm_num [pcmLoop, h, show Int.tdiv 24 8 = 3 from rfl, show Int.tdiv 3 3 = 1 from rfl]
  · refine ⟨[goByte x 0, goByte x 1, goByte x 2, goByte x 3], rfl, ?_⟩
    have h := pcmDecodeOne_int32 x 0 hlo hhi
    simp only [PCMToInt32, List.length_cons, List.length_nil]
    norm_num [pcmLoop, h, show Int.tdiv 32 8 = 4 from rfl, show Int.tdiv 4 4 = 1 from rfl]

/-- Claim C4: when the source stream is 24-bit and the requested output depth
is 16-bit, the decoder emits for every sample exactly the two highest-order
bytes of the 24-bit little-endian value: `packSample` produces `b24[1:3]`,
reading those two bytes back at 16-bit yields the arithmetic right shift
`x / 256` (floor division, truncation without rounding), and the write
callback appends exactly those two bytes to the ring buffer. -/
theorem pack24to16_truncation (x : Int) (hlo : -(2^23) ≤ x) (hhi : x < 2^23) :
    packSample 3 16 x = some [goByte x 1, goByte x 2] ∧
    PCMToInt32 [goByte x 1, goByte x 2] 16 [0] = some (1, [x / 256]) ∧
    ∀ st : DecState, st.streamBytesPerSample = 3 → st.maxOutputSampleBitDepth = 16 →
      st.channels = 1 → st.ring = [] →
      decoderWriteCallback st ⟨1, [[x]]⟩ =
        ({ st with ring := [goByte x 1, goByte x 2] }, true) := by
  have hpack : packSample 3 16 x = some [goByte x 1, goByte x 2] := by
    rw [show packSample 3 16 x = some ((int32toInt24LEBytes x).drop 1) from rfl,
      int32toInt24LEBytes_eq_goBytes]
    rfl
  refine ⟨hpack, ?_, ?_⟩
  · have h := pcmDecodeOne_int24to16 x 0 hlo hhi
    simp only [PCMToInt32, List.length_cons, List.length_nil]
    norm_num [pcmLoop, h, show Int.tdiv 16 8 = 2 from rfl, show Int.tdiv 2 2 = 1 from rfl]
  · intro st h3 h16 hch hring
    have hrw : ringWrite st.ring [goByte x 1, goByte x 2] =
        some [goByte x 1, goByte x 2] := by
      rw [ringWrite, if_neg (by rw [hring]; norm_num [ringBufferCapacity]), hring]
      rfl
    rw [decoderWriteCallback]
    rw [if_neg (by norm_num), if_neg (by rw [hch]; norm_num)]
    rw [show interleaveIndices (Frame.mk 1 [[x]]).blocksize st.channels.toNat =
        [(0, 0)] from by rw [hch]; rfl]
    simp only [writeFrameLoop, h3, h16, List.getD_cons_zero, hpack, hrw]

theorem packSample_none (spb maxd x : Int)
    (h3 : spb ≠ 3) (h2 : spb ≠ 2) (h1 : spb ≠ 1) (h4 : spb ≠ 4) :
    packSample spb maxd x = none := by
  rw [packSample, if_neg h3, if_neg h2, if_neg h1, if_neg h4]

theorem interleaveIndices_head (b c : Nat) (hb : 0 < b) (hc : 0 < c) :
    ∃ rest, interleaveIndices b c = (0, 0) :: rest := by
  obtain ⟨b2, rfl⟩ : ∃ b2, b = b2 + 1 := ⟨b - 1, by omega⟩
  obtain ⟨c2, rfl⟩ : ∃ c2, c = c2 + 1 := ⟨c - 1, by omega⟩
  rw [interleaveIndices, List.range_succ_eq_map, List.flatMap_cons,
    List.range_succ_eq_map, List.map_cons, List.cons_append]
  exact ⟨_, rfl⟩

theorem pcmLoop_id (pcm : List Nat) (bps : Int) (n : Nat)
    (h1 : bps ≠ 1) (h2 : bps ≠ 2) (h3 : bps ≠ 3) (h4 : bps ≠ 4) :
    ∀ (i : Nat) (out : List Int), pcmLoop pcm bps n i out = out := by
  intro i out
  induction out generalizing i with
  | nil => rfl
  | cons a l ih =>
    rw [pcmLoop]
    have hone : (if i < n then pcmDecodeOne pcm bps (i * bps.toNat) a else a) = a := by
      split_ifs with h
      · rw [pcmDecodeOne, if_neg h1, if_neg h2, if_neg h3, if_neg h4]
      · rfl
    rw [hone, ih]

/-- Claim C9 (counterexample): `PCMToInt32` does not fail fast for byte
widths outside `{1,2,3,4}`. At bit depth 40 (byte width 5) on a 10-byte
input it silently returns the sample count 2 while leaving the output slice
entries untouched — a normal return, not a programming-error failure. -/
theorem PCMToInt32_width5_silent :
    PCMToInt32 [1, 2, 3, 4, 5, 6, 7, 8, 9, 10] 40 [111, 222] = some (2, [111, 222]) := by
  decide

/-- Claim C9 (amended): the decoder write callback does fail fast on a
stream byte width outside `{1,2,3,4}` — it latches an "unsupported stream
bytes per sample" error via `setError` and aborts; `PCMToInt32` fails fast
only for bit depths below 8 (byte width 0, a division-by-zero panic in Go);
for any other width outside `{1,2,3,4}` it silently returns the computed
sample count with the output slice unmodified. -/
theorem unsupported_width_handling :
    (∀ (st : DecState) (f : Frame),
      0 < f.blocksize → 0 < st.channels →
      st.streamBytesPerSample ≠ 1 → st.streamBytesPerSample ≠ 2 →
      st.streamBytesPerSample ≠ 3 → st.streamBytesPerSample ≠ 4 →
      decoderWriteCallback st f =
        (setError st (.unsupportedStreamBps st.streamBytesPerSample), false)) ∧
    (∀ (pcm : List Nat) (bits : Int) (out : List Int),
      bits.tdiv 8 = 0 → PCMToInt32 pcm bits out = none) ∧
    (∀ (pcm : List Nat) (bits : Int) (out : List Int),
      bits.tdiv 8 ≠ 0 → bits.tdiv 8 ≠ 1 → bits.tdiv 8 ≠ 2 →
      bits.tdiv 8 ≠ 3 → bits.tdiv 8 ≠ 4 →
      ∃ cnt, PCMToInt32 pcm bits out = some (cnt, out)) := by
  refine ⟨?_, ?_, ?_⟩
  · intro st f hb hc h1 h2 h3 h4
    rw [decoderWriteCallback, if_neg (by omega), if_neg (by omega)]
    obtain ⟨rest, hI⟩ := interleaveIndices_head f.blocksize st.channels.toNat hb
      (toNat_pos_of_pos hc)
    rw [hI, writeFrameLoop]
    rw [packSample_none _ _ _ h3 h2 h1 h4]
  · intro pcm bits out h0
    rw [PCMToInt32, if_pos h0]
  · intro pcm bits out h0 h1 h2 h3 h4
    refine ⟨if (out.length : Int) < (pcm.length : Int).tdiv (bits.tdiv 8)
        then (out.length : Int) else (pcm.length : Int).tdiv (bits.tdiv 8), ?_⟩
    simp only [PCMToInt32, if_neg h0]
    rw [pcmLoop_id pcm _ _ h1 h2 h3 h4]

/-- Spec-side formulation of the packed STREAMINFO word: the plain big-endian
field packing `rate(20) | channels-1(3) | depth-1(5) | totalSamples(36)` as a
sum of shifted fields (§3 of the spec). `encoderStreamInfo_layout` proves the
source serializer equal to this for in-range fields. -/
def streamInfoPackedSpec (rate channels bps totalSamples : Int) : Nat :=
  rate.toNat * 2^44 + (channels.toNat - 1) * 2^41 + (bps.toNat - 1) * 2^36 +
    totalSamples.toNat

/-- For in-range fields the wrapped/OR-based packed word of the serializer is
the plain shifted sum of the spec layout. -/
theorem streamInfoPacked_eq (rate channels bps totalSamples : Int)
    (hr : 0 ≤ rate) (hr2 : rate < 2^20) (hch : 1 ≤ channels) (hch2 : channels ≤ 8)
    (hbps : 1 ≤ bps) (hbps2 : bps ≤ 32) (hts : 0 ≤ totalSamples)
    (hts2 : totalSamples < 2^36) :
    streamInfoPacked rate channels bps totalSamples =
      streamInfoPackedSpec rate channels bps totalSamples := by
  have e1 : u64 rate = rate.toNat := by unfold u64; omega
  have e2 : u64 (channels - 1) = channels.toNat - 1 := by unfold u64; omega
  have e3 : u64 (bps - 1) = bps.toNat - 1 := by unfold u64; omega
  have e4 : u64 totalSamples = totalSamples.toNat := by unfold u64; omega
  have b1 : rate.toNat < 2^20 := by omega
  have b2 : channels.toNat - 1 < 2^3 := by omega
  have b3 : bps.toNat - 1 < 2^5 := by omega
  have b4 : totalSamples.toNat < 2^36 := by omega
  rw [streamInfoPacked, e1, e2, e3, e4, Nat.shiftLeft_eq, Nat.shiftLeft_eq, Nat.shiftLeft_eq]
  rw [Nat.mod_eq_of_lt (by omega), Nat.mod_eq_of_lt (by omega), Nat.mod_eq_of_lt (by omega)]
  have s1 : rate.toNat * 2^44 ||| (channels.toNat - 1) * 2^41 =
      2^41 * (2^3 * rate.toNat + (channels.toNat - 1)) := by
    rw [show rate.toNat * 2^44 = 2^41 * (2^3 * rate.toNat) by ring,
      show (channels.toNat - 1) * 2^41 = 2^41 * (channels.toNat - 1) by ring,
      two_pow_mul_lor_two_pow_mul, two_pow_mul_lor_eq_add 3 rate.toNat _ b2]
  have s2 : 2^41 * (2^3 * rate.toNat + (channels.toNat - 1)) ||| (bps.toNat - 1) * 2^36 =
      2^36 * (2^5 * (2^3 * rate.toNat + (channels.toNat - 1)) + (bps.toNat - 1)) := by
    rw [show (2:Nat)^41 * (2^3 * rate.toNat + (channels.toNat - 1)) =
        2^36 * (2^5 * (2^3 * rate.toNat + (channels.toNat - 1))) by ring,
      show (bps.toNat - 1) * 2^36 = 2^36 * (bps.toNat - 1) by ring,
      two_pow_mul_lor_two_pow_mul, two_pow_mul_lor_eq_add 5 _ _ b3]
  have s3 : 2^36 * (2^5 * (2^3 * rate.toNat + (channels.toNat - 1)) + (bps.toNat - 1)) |||
      totalSamples.toNat =
      2^36 * (2^5 * (2^3 * rate.toNat + (channels.toNat - 1)) + (bps.toNat - 1)) +
        totalSamples.toNat :=
    two_pow_mul_lor_eq_add 36 _ _ b4
  rw [s1, s2, s3, streamInfoPackedSpec]
  ring

/-- Claim C8: the serialized STREAMINFO block is exactly 34 bytes with
big-endian field encoding: bytes 0-1 and 2-3 are the 16-bit min/max block
sizes, bytes 4-6 and 7-9 the 24-bit min/max frame sizes, bytes 10-17 the
big-endian packing `rate(20) | channels-1(3) | depth-1(5) | totalSamples(36)`,
and bytes 18-33 the 16-byte checksum. -/
theorem encoderStreamInfo_layout (minBlock maxBlock minFrame maxFrame rate channels bps
    totalSamples : Int) (md5 : List Nat)
    (hmb : 0 ≤ minBlock) (hmb2 : minBlock < 2^16)
    (hxb : 0 ≤ maxBlock) (hxb2 : maxBlock < 2^16)
    (hmf : 0 ≤ minFrame) (hmf2 : minFrame < 2^24)
    (hxf : 0 ≤ maxFrame) (hxf2 : maxFrame < 2^24)
    (hr : 0 ≤ rate) (hr2 : rate < 2^20) (hch : 1 ≤ channels) (hch2 : channels ≤ 8)
    (hbps : 1 ≤ bps) (hbps2 : bps ≤ 32) (hts : 0 ≤ totalSamples) (hts2 : totalSamples < 2^36)
    (hmd5 : md5.length = 16) :
    (encoderStreamInfo minBlock maxBlock minFrame maxFrame rate channels bps
        totalSamples md5).length = 34 ∧
    encoderStreamInfo minBlock maxBlock minFrame maxFrame rate channels bps
        totalSamples md5 =
      [minBlock.toNat / 2^8, minBlock.toNat % 2^8,
       maxBlock.toNat / 2^8, maxBlock.toNat % 2^8,
       minFrame.toNat / 2^16, minFrame.toNat / 2^8 % 2^8, minFrame.toNat % 2^8,
       maxFrame.toNat / 2^16, maxFrame.toNat / 2^8 % 2^8, maxFrame.toNat % 2^8,
       streamInfoPackedSpec rate channels bps totalSamples / 2^56,
       streamInfoPackedSpec rate channels bps totalSamples / 2^48 % 2^8,
       streamInfoPackedSpec rate channels bps totalSamples / 2^40 % 2^8,
       streamInfoPackedSpec rate channels bps totalSamples / 2^32 % 2^8,
       streamInfoPackedSpec rate channels bps totalSamples / 2^24 % 2^8,
       streamInfoPackedSpec rate channels bps totalSamples / 2^16 % 2^8,
       streamInfoPackedSpec rate channels bps totalSamples / 2^8 % 2^8,
       streamInfoPackedSpec rate channels bps totalSamples % 2^8] ++ md5 := by
  constructor
  · rw [encoderStreamInfo]
    simp [hmd5]
  · rw [encoderStreamInfo,
      streamInfoPacked_eq rate channels bps totalSamples hr hr2 hch hch2 hbps hbps2 hts hts2]
    have hb1 : rate.toNat < 2^20 := by omega
    have hb2 : channels.toNat - 1 < 2^3 := by omega
    have hb3 : bps.toNat - 1 < 2^5 := by omega
    have hb4 : totalSamples.toNat < 2^36 := by omega
    have hP : streamInfoPackedSpec rate channels bps totalSamples < 2^64 := by
      rw [streamInfoPackedSpec]
      omega
    congr 1
    rw [streamInfoPackedSpec] at hP ⊢
    simp only [goByte64, u64, List.cons.injEq, and_true]
    repeat' apply And.intro
    all_goals omega

/-! ## Concrete instances for the witnesses -/

/-- A freshly opened mono 8-bit decoder whose backend holds one two-sample
frame: used to exercise a full decode-to-end-of-stream run. -/
def c2State : DecState :=
  { channels := 1, outputBytesPerSample := 1, streamBytesPerSample := 1,
    maxOutputSampleBitDepth := 8, currentSample := 0, totalSamples := 2,
    lastError := none, ring := [], steps := [⟨[], some ⟨2, [[5, 6]]⟩, true⟩],
    eofSeen := false }

/-- The state `c2State` reaches after `DecodeSamples` drains the stream. -/
def c2StateAfter : DecState :=
  { channels := 1, outputBytesPerSample := 1, streamBytesPerSample := 1,
    maxOutputSampleBitDepth := 8, currentSample := 2, totalSamples := 2,
    lastError := none, ring := [], steps := [], eofSeen := true }

theorem DecodeSamples_eof_semantics_witness :
    DecodeSamples c2State 3 10 = (c2StateAfter, .result 2 none) ∧
    (none : Option Err) = none ∧
    (DecodeSamples c2StateAfter 1 1).2 = .result 0 (some .endOfStream) := by
  have hrun : DecodeSamples c2State 3 10 = (c2StateAfter, .result 2 none) := by decide
  have h := DecodeSamples_eof_semantics c2State 3 10 c2StateAfter 2 none
    (by intro hx; exact absurd hx (by decide)) (by decide) (by decide) (by decide)
    (by decide) hrun rfl
  have h2 := h.2 (by norm_num)
  exact ⟨hrun, h2.1, h2.2 1 1 (by decide) (by decide) (by decide)⟩

def c10State : DecState :=
  { channels := 2, outputBytesPerSample := 1, streamBytesPerSample := 1,
    maxOutputSampleBitDepth := 8, currentSample := 7, totalSamples := 4,
    lastError := none, ring := [1, 2, 3, 4], steps := [], eofSeen := false }

def c10StateAfter : DecState :=
  { channels := 2, outputBytesPerSample := 1, streamBytesPerSample := 1,
    maxOutputSampleBitDepth := 8, currentSample := 9, totalSamples := 4,
    lastError := none, ring := [], steps := [], eofSeen := false }

theorem DecodeSamples_position_witness :
    (0 : Int) ≤ ((2 : Nat) : Int) ∧ (0 < (2 : Int) → ((2 : Nat) : Int) ≤ 2) ∧
    ((2 : Int) ≤ 0 → (2 : Nat) = 0) ∧
    TellCurrentSample c10StateAfter = TellCurrentSample c10State + ((2 : Nat) : Int) :=
  DecodeSamples_position c10State 2 4 c10StateAfter 2 none
    (by intro hx; exact absurd hx (by decide)) (by decide)

theorem packSample_PCMToInt32_roundtrip_witness :
    ((2 : Nat) = 1 ∨ (2 : Nat) = 2 ∨ (2 : Nat) = 3 ∨ (2 : Nat) = 4) ∧
    (-(2^(8*2-1)) ≤ (-12345 : Int) ∧ (-12345 : Int) < 2^(8*2-1)) ∧
    ∃ bs, packSample ((2 : Nat) : Int) ((8*2 : Nat) : Int) (-12345) = some bs ∧
      PCMToInt32 bs ((8*2 : Nat) : Int) [0] = some (1, [(-12345 : Int)]) :=
  ⟨by norm_num, ⟨by decide, by decide⟩,
    packSample_PCMToInt32_roundtrip 2 (by norm_num) (-12345) (by decide) (by decide)⟩

/-- The state of a 24-bit stream decoded at 16-bit output depth, used to show
the sample `0x123456` being delivered as the two bytes `0x34 0x12`. -/
def c4State : DecState :=
  { channels := 1, outputBytesPerSample := 2, streamBytesPerSample := 3,
    maxOutputSampleBitDepth := 16, currentSample := 0, totalSamples := 1,
    lastError := none, ring := [], steps := [], eofSeen := false }

theorem pack24to16_truncation_witness :
    packSample 3 16 0x123456 = some [0x34, 0x12] ∧
    PCMToInt32 [0x34, 0x12] 16 [0] = some (1, [(0x1234 : Int)]) ∧
    decoderWriteCallback c4State ⟨1, [[0x123456]]⟩ =
      ({ c4State with ring := [0x34, 0x12] }, true) := by
  obtain ⟨ha, hb, hc⟩ := pack24to16_truncation 0x123456 (by decide) (by decide)
  have e : [goByte 0x123456 1, goByte 0x123456 2] = ([0x34, 0x12] : List Nat) := by decide
  have ev : (0x123456 : Int) / 256 = 0x1234 := by decide
  refine ⟨?_, ?_, ?_⟩
  · rw [ha, e]
  · rw [e] at hb
    rw [hb, ev]
  · have h3 := hc c4State rfl rfl rfl rfl
    rw [e] at h3
    exact h3

def c5State : DecState :=
  { channels := 2, outputBytesPerSample := 2, streamBytesPerSample := 2,
    maxOutputSampleBitDepth := 16, currentSample := 3, totalSamples := 5,
    lastError := none, ring := [0, 1], steps := [], eofSeen := false }

theorem Seek_validation_witness :
    (∃ e, Seek c5State (-1) 0 true = (c5State, 3, some e)) ∧
    (∃ e, Seek c5State 5 0 true = (c5State, 3, some e)) ∧
    Seek c5State 4 0 true = ({ c5State with ring := [], currentSample := 4 }, 4, none) := by
  refine ⟨?_, ?_, ?_⟩
  · exact (Seek_validation c5State (-1) 0 true).2.1 (Or.inl (by decide))
  · exact (Seek_validation c5State 5 0 true).2.1 (Or.inr (by decide))
  · have h := (Seek_validation c5State 4 0 true).2.2 (by decide) (by decide)
    exact h

def c6State : DecState :=
  { channels := 2, outputBytesPerSample := 2, streamBytesPerSample := 2,
    maxOutputSampleBitDepth := 16, currentSample := 6, totalSamples := 9,
    lastError := none, ring := [7], steps := [], eofSeen := false }

theorem Seek_all_or_nothing_witness :
    ((Seek c6State 2 0 false).1.currentSample = c6State.currentSample ∧
     (Seek c6State 2 0 false).2.1 = c6State.currentSample ∧
     (Seek c6State 2 0 false).2.2.isSome = true) ∧
    Seek c6State 2 0 true = ({ c6State with ring := [], currentSample := 2 }, 2, none) :=
  ⟨(Seek_all_or_nothing c6State 2 0).1,
    (Seek_all_or_nothing c6State 2 0).2 (by decide) (by decide)⟩

def c7State : DecState :=
  { channels := 2, outputBytesPerSample := 4, streamBytesPerSample := 4,
    maxOutputSampleBitDepth := 32, currentSample := 0, totalSamples := 100,
    lastError := none, ring := [], steps := [], eofSeen := false }

theorem DecodeSamples_validation_witness :
    (∃ e, DecodeSamples c7State (-3) 64 = (c7State, .result 0 (some e))) ∧
    (∃ e, DecodeSamples c7State 2305843009213693952 64 = (c7State, .result 0 (some e))) ∧
    (∃ e, DecodeSamples c7State 9 64 = (c7State, .result 0 (some e))) := by
  refine ⟨?_, ?_, ?_⟩
  · exact DecodeSamples_validation c7State (-3) 64 (Or.inl (by decide))
  · exact DecodeSamples_validation c7State 2305843009213693952 64
      (Or.inr (Or.inr (Or.inr (Or.inl (by decide)))))
  · exact DecodeSamples_validation c7State 9 64
      (Or.inr (Or.inr (Or.inr (Or.inr (by decide)))))

theorem encoderStreamInfo_layout_witness :
    (encoderStreamInfo 4096 4096 0 0 44100 2 16 8192
      [0, 0, 0, 0, 0, 0, 0, 0, 0, 0, 0, 0, 0, 0, 0, 0]).length = 34 ∧
    (encoderStreamInfo 4096 4096 0 0 44100 2 16 8192
      [0, 0, 0, 0, 0, 0, 0, 0, 0, 0, 0, 0, 0, 0, 0, 0]).take 2 = [0x10, 0x00] := by
  have h := encoderStreamInfo_layout 4096 4096 0 0 44100 2 16 8192
    [0, 0, 0, 0, 0, 0, 0, 0, 0, 0, 0, 0, 0, 0, 0, 0]
    (by decide) (by decide) (by decide) (by decide) (by decide) (by decide) (by decide)
    (by decide) (by decide) (by decide) (by decide) (by decide) (by decide) (by decide)
    (by decide) (by decide) rfl
  refine ⟨h.1, ?_⟩
  rw [h.2]
  decide

def c9State : DecState :=
  { channels := 1, outputBytesPerSample := 2, streamBytesPerSample := 5,
    maxOutputSampleBitDepth := 16, currentSample := 0, totalSamples := 1,
    lastError := none, ring := [], steps := [], eofSeen := false }

theorem unsupported_width_handling_witness :
    decoderWriteCallback c9State ⟨1, [[0]]⟩ =
      (setError c9State (.unsupportedStreamBps 5), false) ∧
    PCMToInt32 [1, 2, 3] 4 [9] = none ∧
    (∃ cnt, PCMToInt32 [1, 2, 3, 4, 5] 48 [9] = some (cnt, [9])) := by
  obtain ⟨ha, hb, hc⟩ := unsupported_width_handling
  exact ⟨ha c9State ⟨1, [[0]]⟩ (by decide) (by decide) (by decide) (by decide) (by decide)
      (by decide),
    hb [1, 2, 3] 4 [9] (by decide),
    hc [1, 2, 3, 4, 5] 48 [9] (by decide) (by decide) (by decide) (by decide) (by decide)⟩

def c1State : DecState :=
  { channels := 1, outputBytesPerSample := 1, streamBytesPerSample := 1,
    maxOutputSampleBitDepth := 8, currentSample := 0, totalSamples := 0,
    lastError := none, ring := [], steps := [⟨[3, 7], none, false⟩], eofSeen := false }

theorem lastError_latch_amended_witness :
    setError c1State .decodeError = { c1State with lastError := some .decodeError } ∧
    decoderErrorCallback c1State 4 =
      { c1State with lastError := some (.flacDecoderError 4) } ∧
    (DecodeSamples c1State 1 4).2 = .result 0 (some (.flacDecoderError 7)) ∧
    DecodeSamples { c1State with lastError := some .decodeError } 1 4 =
      DecodeSamples { c1State with lastError := none } 1 4 := by
  obtain ⟨h1, _, h3, h4, h5⟩ := lastError_latch_amended
  exact ⟨h1 c1State .decodeError rfl, h3 c1State 4,
    h4 c1State 3 7 1 4 rfl rfl rfl (by decide) (by decide) (by decide) (by decide),
    h5 c1State .decodeError 1 4 (by decide) (by decide) (by decide) (by decide)⟩
